import Mathlib

/-!
Verification of the houseform form-state coordination engine
(src/lib/form/form.tsx) against its natural-language specification.

The engine is shallowly embedded: the registry of field handles is a
`List Field`, the four lazily armed cache slots are an explicit
`CacheState`, the getters / recompute entry points / reset are pure
state transformers that additionally report which aggregates they
computed, and the async submission pipeline is a pure function
parameterised by the completion order of the per-field validator
chains, returning an `Except` to model promise rejection.
-/

namespace Houseform

/-- JavaScript-like values held by fields and produced as the structured
submission result. Objects are kept with keys in sorted order, so that
equality of `Value.vobj` coincides with structural (deep) equality of
the corresponding JavaScript objects, which is insensitive to key
insertion order. -/
inductive Value where
  | vstr : String → Value
  | vnum : Nat → Value
  | vbool : Bool → Value
  | vnull : Value
  | varr : List Value → Value
  | vobj : List (String × Value) → Value

/-- JavaScript truthiness: the empty string, zero, `false` and
`null`/`undefined` are falsy; arrays and objects are always truthy. -/
def Value.truthy : Value → Bool
  | .vstr s => !(s == "")
  | .vnum n => !(n == 0)
  | .vbool b => b
  | .vnull => false
  | .varr _ => true
  | .vobj _ => true

/-- JavaScript `a || b` on possibly-undefined values (`none` models an
absent / `undefined` property). -/
def jsOrV (a b : Option Value) : Option Value :=
  match a with
  | some v => if v.truthy then some v else b
  | none => b

/-- JavaScript `a || d` with a defined fallback `d`. -/
def jsOrD (a : Option Value) (d : Value) : Value :=
  match a with
  | some v => if v.truthy then v else d
  | none => d

/-- The three validation trigger phases of a field. -/
inductive Phase where
  | change
  | blur
  | submitPhase
deriving DecidableEq, Repr

/-- A value thrown by a validator: either a structured schema error
(`ZodError`, carrying a list of issue messages) or a plain string. -/
inductive ThrownError where
  | zod : List String → ThrownError
  | plain : String → ThrownError
deriving DecidableEq, Repr

/-- Modelled from the spec: `getValidationError` lives in `../utils`,
which is not part of this repository snapshot; per the spec it
normalizes a thrown value into a list of human-readable messages,
handling both a structured schema-error shape and a plain string. -/
def getValidationError : ThrownError → List String
  | .zod msgs => msgs
  | .plain s => [s]

/-- Discriminates the `submit` member carried by a form-instance object:
the always-resolve-true stub installed on the internal base object
(line 214 of form.tsx) versus the real submit operation installed on the
public handle. -/
inductive SubmitMember where
  | stub
  | realOp
deriving DecidableEq, Repr

/-- The observable part of the form-instance object handed to validators
and to the user submit callback. -/
structure FormArg where
  submitMember : SubmitMember
deriving DecidableEq, Repr

/-- The internal base object (`baseValue` in form.tsx): its `submit`
member is the stub. -/
def baseFormArg : FormArg := { submitMember := SubmitMember.stub }

/-- The public handle (`value` in form.tsx): its `submit` member is the
real submit operation. -/
def publicFormArg : FormArg := { submitMember := SubmitMember.realOp }

/-- A field validator, as run by `validate(value, form, validator)`:
it receives the current field value and the form instance and either
passes or throws. -/
def Validator : Type := Value → FormArg → Except ThrownError Unit

/-- The props of a registered field handle, as read by the form engine:
the declared path-like name, the reset / initial values, and up to three
optional validators keyed by trigger phase. -/
structure FieldProps where
  name : String
  initialValue : Option Value
  resetWithValue : Option Value
  onChangeValidate : Option Validator
  onBlurValidate : Option Validator
  onSubmitValidate : Option Validator

/-- A registered field handle (`FieldInstance` / `FieldArrayInstance`),
restricted to the members the form engine reads: props, current value,
error list, dirty / touched flags, and the precomputed normalized dotted
name used for array-index-agnostic lookup. -/
structure Field where
  props : FieldProps
  value : Value
  errors : List String
  isDirty : Bool
  isTouched : Bool
  normalizedDotName : String

/-- Helper to build a plain field with no validators and no declared
reset / initial values. -/
def mkField (name : String) (v : Value) : Field :=
  { props :=
      { name := name
        initialValue := none
        resetWithValue := none
        onChangeValidate := none
        onBlurValidate := none
        onSubmitValidate := none }
    value := v
    errors := []
    isDirty := false
    isTouched := false
    normalizedDotName := name }

/-- `getErrors` (form.tsx lines 80-84): concatenation, in registry
order, of every field error list. -/
def getErrors (fields : List Field) : List String :=
  fields.foldl (fun acc f => acc ++ f.errors) []

/-- `getValidBoolean` (form.tsx lines 86-91): `true` when the registry
is empty, else `every` field has an empty error list. -/
def getValidBoolean (fields : List Field) : Bool :=
  if fields.length = 0 then true
  else fields.all (fun f => f.errors.length == 0)

/-- The two boolean field flags aggregated by `getFieldBoolean`. -/
inductive BoolFieldName where
  | dirty
  | touched
deriving DecidableEq, Repr

/-- `getFieldBoolean` (form.tsx lines 93-105): `some` field has the
requested boolean flag set. -/
def getFieldBoolean (fields : List Field) (b : BoolFieldName) : Bool :=
  fields.any (fun f =>
    match b with
    | .dirty => f.isDirty
    | .touched => f.isTouched)

/-- Modelled from the spec: `stringToPath` lives in `../utils`, which is
not part of this repository snapshot; per the spec it parses a path
string such as "a.b" or "list[0]" into its segments, canonicalizing away
the dot and bracket delimiters. -/
def stringToPath (s : String) : List String :=
  let isDelim : Char → Bool := fun c => c == '.' || c == '[' || c == ']'
  let step : Char → (List String × List Char) → (List String × List Char) :=
    fun c acc =>
      if isDelim c then
        (if acc.2.isEmpty then acc.1 else String.mk acc.2 :: acc.1, [])
      else
        (acc.1, c :: acc.2)
  let parts := s.toList.foldr step ([], [])
  if parts.2.isEmpty then parts.1 else String.mk parts.2 :: parts.1

/-- The normalized dotted form of a path string:
`stringToPath(name).join(".")` (form.tsx line 43). -/
def normalizedName (s : String) : String :=
  String.intercalate "." (stringToPath s)

/-- `getFieldValue` (form.tsx lines 37-49): first attempt an exact match
on the literal field name; on miss, canonicalize the query and match
against each handle precomputed normalized dotted name; a double miss
resolves to `none` rather than raising. -/
def getFieldValue (fields : List Field) (name : String) : Option Field :=
  match fields.find? (fun f => f.props.name == name) with
  | some f => some f
  | none =>
    let normalized := normalizedName name
    fields.find? (fun f => f.normalizedDotName == normalized)

/-- The four derived-state cache slots. -/
inductive Slot where
  | errors
  | isValid
  | isDirty
  | isTouched
deriving DecidableEq, Repr

/-- The derived-state cache: for each slot its cached value (`none` is
the not-yet-computed `null` state) and its armed flag
(`shouldRerender*OnRecompute` in form.tsx lines 67-78). -/
structure CacheState where
  errorsCache : Option (List String)
  isValidCache : Option Bool
  isDirtyCache : Option Bool
  isTouchedCache : Option Bool
  rerenderErrors : Bool
  rerenderIsValid : Bool
  rerenderIsDirty : Bool
  rerenderIsTouched : Bool

/-- The initial cache: nothing computed, nothing armed. -/
def initialCache : CacheState :=
  { errorsCache := none
    isValidCache := none
    isDirtyCache := none
    isTouchedCache := none
    rerenderErrors := false
    rerenderIsValid := false
    rerenderIsDirty := false
    rerenderIsTouched := false }

/-- The engine state: the field registry, the derived-state cache and
the submitted flag. -/
structure FormState where
  fields : List Field
  cache : CacheState
  isSubmitted : Bool

/-- The engine state for a given registry, before any read or submit. -/
def initState (fields : List Field) : FormState :=
  { fields := fields, cache := initialCache, isSubmitted := false }

/-- `errorGetter` (form.tsx lines 132-140): arm the errors slot
unconditionally; if the cache is `null`, compute, publish and return the
aggregate, else return the cached value. The returned `List Slot`
records which aggregates were computed. -/
def errorGetter (st : FormState) : List String × FormState × List Slot :=
  let c := { st.cache with rerenderErrors := true }
  match st.cache.errorsCache with
  | none =>
    let v := getErrors st.fields
    (v, { st with cache := { c with errorsCache := some v } }, [Slot.errors])
  | some v => (v, { st with cache := c }, [])

/-- `isValidGetter` (form.tsx lines 142-150): arm the isValid slot
unconditionally; compute and publish only when the cache is `null`. -/
def isValidGetter (st : FormState) : Bool × FormState × List Slot :=
  let c := { st.cache with rerenderIsValid := true }
  match st.cache.isValidCache with
  | none =>
    let v := getValidBoolean st.fields
    (v, { st with cache := { c with isValidCache := some v } }, [Slot.isValid])
  | some v => (v, { st with cache := c }, [])

/-- `isDirtyGetter` (form.tsx lines 152-160): arm the slot only inside
the cache-is-`null` branch; a non-`null` cache is returned untouched. -/
def isDirtyGetter (st : FormState) : Bool × FormState × List Slot :=
  match st.cache.isDirtyCache with
  | none =>
    let v := getFieldBoolean st.fields .dirty
    (v,
      { st with cache :=
          { st.cache with rerenderIsDirty := true, isDirtyCache := some v } },
      [Slot.isDirty])
  | some v => (v, st, [])

/-- `isTouchedGetter` (form.tsx lines 162-170): arm the slot only inside
the cache-is-`null` branch. -/
def isTouchedGetter (st : FormState) : Bool × FormState × List Slot :=
  match st.cache.isTouchedCache with
  | none =>
    let v := getFieldBoolean st.fields .touched
    (v,
      { st with cache :=
          { st.cache with rerenderIsTouched := true, isTouchedCache := some v } },
      [Slot.isTouched])
  | some v => (v, st, [])

/-- `recomputeErrors` (form.tsx lines 107-116): the single recompute
entry point serving both the errors and the isValid slots; each is
recomputed and republished exactly when armed. -/
def recomputeErrors (st : FormState) : FormState × List Slot :=
  let p1 :=
    if st.cache.rerenderErrors then
      ({ st.cache with errorsCache := some (getErrors st.fields) }, [Slot.errors])
    else (st.cache, ([] : List Slot))
  let p2 :=
    if st.cache.rerenderIsValid then
      ({ p1.1 with isValidCache := some (getValidBoolean st.fields) },
        p1.2 ++ [Slot.isValid])
    else p1
  ({ st with cache := p2.1 }, p2.2)

/-- `recomputeIsDirty` (form.tsx lines 118-123). -/
def recomputeIsDirty (st : FormState) : FormState × List Slot :=
  if st.cache.rerenderIsDirty then
    ({ st with cache :=
        { st.cache with isDirtyCache := some (getFieldBoolean st.fields .dirty) } },
      [Slot.isDirty])
  else (st, [])

/-- `recomputeIsTouched` (form.tsx lines 125-130). -/
def recomputeIsTouched (st : FormState) : FormState × List Slot :=
  if st.cache.rerenderIsTouched then
    ({ st with cache :=
        { st.cache with isTouchedCache := some (getFieldBoolean st.fields .touched) } },
      [Slot.isTouched])
  else (st, [])

/-- The per-field effect of `reset` (form.tsx lines 173-181): the value
becomes `resetWithValue || initialValue`, falling back to `[]` when the
current value is an array and to `""` otherwise, with JavaScript falsy
semantics for `||`. -/
def resetField (f : Field) : Field :=
  let v := jsOrV f.props.resetWithValue f.props.initialValue
  match f.value with
  | Value.varr _ => { f with value := jsOrD v (Value.varr []) }
  | _ => { f with value := jsOrD v (Value.vstr "") }

/-- `reset` (form.tsx lines 172-185): reset every field value, then set
the dirty and touched caches to `false` and the errors cache back to
`null`. The isValid cache and all four armed flags are untouched. -/
def reset (st : FormState) : FormState :=
  { st with
    fields := st.fields.map resetField
    cache :=
      { st.cache with
        isDirtyCache := some false
        isTouchedCache := some false
        errorsCache := none } }

/-- The engine operations observable through the public and registration
surfaces, used to reason about arbitrary interaction traces. `setFields`
stands for arbitrary registry mutation by field collaborators
(register / unregister / local state change). -/
inductive Op where
  | getErrorsOp
  | getIsValidOp
  | getIsDirtyOp
  | getIsTouchedOp
  | recomputeErrorsOp
  | recomputeIsDirtyOp
  | recomputeIsTouchedOp
  | resetOp
  | setFields : List Field → Op

/-- One engine step: run the operation, keep the new state and the list
of aggregates it computed. -/
def stepOp (st : FormState) : Op → FormState × List Slot
  | .getErrorsOp => (errorGetter st).2
  | .getIsValidOp => (isValidGetter st).2
  | .getIsDirtyOp => (isDirtyGetter st).2
  | .getIsTouchedOp => (isTouchedGetter st).2
  | .recomputeErrorsOp => recomputeErrors st
  | .recomputeIsDirtyOp => recomputeIsDirty st
  | .recomputeIsTouchedOp => recomputeIsTouched st
  | .resetOp => (reset st, [])
  | .setFields fs => ({ st with fields := fs }, [])

/-- Run a trace of operations, accumulating the computed aggregates. -/
def runOps (st : FormState) (ops : List Op) : FormState × List Slot :=
  ops.foldl
    (fun acc op =>
      let r := stepOp acc.1 op
      (r.1, acc.2 ++ r.2))
    (st, [])

/-- The getter operation of a slot. -/
def Slot.getOp : Slot → Op
  | .errors => Op.getErrorsOp
  | .isValid => Op.getIsValidOp
  | .isDirty => Op.getIsDirtyOp
  | .isTouched => Op.getIsTouchedOp

/-- The recompute entry point of a slot; the errors and isValid slots
share `recomputeErrors`. -/
def Slot.recomputeOp : Slot → Op
  | .errors => Op.recomputeErrorsOp
  | .isValid => Op.recomputeErrorsOp
  | .isDirty => Op.recomputeIsDirtyOp
  | .isTouched => Op.recomputeIsTouchedOp

/-- The armed flag of a slot. -/
def Slot.flag (s : Slot) (c : CacheState) : Bool :=
  match s with
  | .errors => c.rerenderErrors
  | .isValid => c.rerenderIsValid
  | .isDirty => c.rerenderIsDirty
  | .isTouched => c.rerenderIsTouched

/-- Whether the cache of a slot is still in the `null` state. -/
def Slot.cacheNone (s : Slot) (c : CacheState) : Bool :=
  match s with
  | .errors => c.errorsCache.isNone
  | .isValid => c.isValidCache.isNone
  | .isDirty => c.isDirtyCache.isNone
  | .isTouched => c.isTouchedCache.isNone

/-- Whether a getter call in cache state `c` arms its slot: the errors
and isValid getters arm unconditionally, the isDirty and isTouched
getters only when their cache is still `null`. -/
def Slot.armsOn (s : Slot) (c : CacheState) : Bool :=
  match s with
  | .errors => true
  | .isValid => true
  | .isDirty => c.isDirtyCache.isNone
  | .isTouched => c.isTouchedCache.isNone

/-- The cache of slot `s` holds the published aggregate of `fields`. -/
def Slot.published (s : Slot) (fields : List Field) (c : CacheState) : Prop :=
  match s with
  | .errors => c.errorsCache = some (getErrors fields)
  | .isValid => c.isValidCache = some (getValidBoolean fields)
  | .isDirty => c.isDirtyCache = some (getFieldBoolean fields .dirty)
  | .isTouched => c.isTouchedCache = some (getFieldBoolean fields .touched)

/-- Observable events of a submission run: each validator invocation
(with the submit member of the form object it received) and the user
submit-callback invocation (with the assembled values and the submit
member of the form object it received). -/
inductive Event where
  | validatorRun : String → Phase → SubmitMember → Event
  | callbackRun : Value → SubmitMember → Event

/-- Whether an event is a user submit-callback invocation. -/
def Event.isCallback : Event → Bool
  | .callbackRun _ _ => true
  | _ => false

/-- The values argument of a callback invocation event. -/
def Event.callbackValues : Event → Option Value
  | .callbackRun v _ => some v
  | _ => none

/-- The submit member of the form object the event handed out. -/
def Event.formArgOf : Event → SubmitMember
  | .validatorRun _ _ m => m
  | .callbackRun _ m => m

/-- The trigger phase of a validator invocation event. -/
def Event.phaseOf : Event → Option Phase
  | .validatorRun _ p _ => some p
  | .callbackRun _ _ => none

/-- A path segment made only of digits selects an array index. -/
def isNumericSeg (s : String) : Bool :=
  !(s == "") && s.toList.all Char.isDigit

/-- The array index denoted by a numeric segment (digits to base ten,
applied only when the segment is numeric). -/
def segToNat (s : String) : Nat :=
  s.toList.foldl (fun n c => n * 10 + (c.toNat - 48)) 0

/-- Write an array slot, padding missing slots with `null` as
JavaScript does for out-of-range assignment. -/
def writeIdx : List Value → Nat → Value → List Value
  | [], 0, v => [v]
  | _ :: rest, 0, v => v :: rest
  | [], n + 1, v => Value.vnull :: writeIdx [] n v
  | x :: rest, n + 1, v => x :: writeIdx rest n v

/-- Lexicographic comparison of character lists by code point. -/
def charsLt : List Char → List Char → Bool
  | [], [] => false
  | [], _ :: _ => true
  | _ :: _, [] => false
  | c1 :: r1, c2 :: r2 =>
    if c1.toNat < c2.toNat then true
    else if c2.toNat < c1.toNat then false
    else charsLt r1 r2

/-- Lexicographic order on strings, used to keep object keys sorted. -/
def strLt (a b : String) : Bool :=
  charsLt a.toList b.toList

/-- Write an object key, keeping keys sorted so that object equality is
structural. -/
def writeKeySorted : List (String × Value) → String → Value → List (String × Value)
  | [], k, v => [(k, v)]
  | (k1, v1) :: rest, k, v =>
    if k = k1 then (k, v) :: rest
    else if strLt k k1 then (k, v) :: (k1, v1) :: rest
    else (k1, v1) :: writeKeySorted rest k v

/-- The array behind a value, or an empty one when the value is not an
array (intermediate non-containers are replaced on demand). -/
def Value.arrOrEmpty : Value → List Value
  | .varr xs => xs
  | _ => []

/-- The object entries behind a value, or empty when the value is not an
object. -/
def Value.objOrEmpty : Value → List (String × Value)
  | .vobj kvs => kvs
  | _ => []

/-- Place a leaf at a segment path inside a value tree: numeric segments
index arrays, other segments index objects, and intermediate containers
are created on demand. -/
def fillSegs : List String → Value → Value → Value
  | [], _, leaf => leaf
  | seg :: rest, t, leaf =>
    if isNumericSeg seg then
      let xs := t.arrOrEmpty
      let idx := segToNat seg
      let old := xs.getD idx Value.vnull
      Value.varr (writeIdx xs idx (fillSegs rest old leaf))
    else
      let kvs := t.objOrEmpty
      let old := ((kvs.lookup seg).getD Value.vnull)
      Value.vobj (writeKeySorted kvs seg (fillSegs rest old leaf))

/-- Modelled from the spec: `fillPath` lives in `../utils`, which is not
part of this repository snapshot; per the spec it projects a flat field
name into the nested result structure, creating intermediate objects on
demand, turning numeric segments into array indices and placing the
field value at the path. -/
def fillPath (t : Value) (name : String) (v : Value) : Value :=
  fillSegs (stringToPath name) t v

/-- The declared validator of a field for a phase
(`formField.props[type]`, form.tsx line 240). -/
def validatorFor (f : Field) : Phase → Option Validator
  | .change => f.props.onChangeValidate
  | .blur => f.props.onBlurValidate
  | .submitPhase => f.props.onSubmitValidate

/-- `runValidationType` (form.tsx lines 237-252): a field with no
declared validator for the phase passes without an invocation; a
declared validator is invoked with the field value and the internal base
object; a thrown error is caught, normalized with `getValidationError`
and stored as the field error list, and the phase reports failure. -/
def runValidationType (f : Field) (p : Phase) : Bool × Field × List Event :=
  match validatorFor f p with
  | none => (true, f, [])
  | some v =>
    match v f.value baseFormArg with
    | .ok _ =>
      (true, f, [Event.validatorRun f.props.name p baseFormArg.submitMember])
    | .error e =>
      (false, { f with errors := getValidationError e },
        [Event.validatorRun f.props.name p baseFormArg.submitMember])

/-- The outcome of one per-field validation chain: the final validity
boolean collected into `validArrays`, the updated field, the validator
invocation events in order, and the projection write performed into the
shared `values` object when the field passed. -/
structure ChainResult where
  passed : Bool
  field : Field
  events : List Event
  write : Option (String × Value)

/-- The per-field chain run by `submit` (form.tsx lines 236-262):
onChange, then onBlur, then onSubmit, short-circuiting on the first
failing phase; a field that still carries errors after all three phases
fails; a passing field projects its value at its name. -/
def fieldChain (f : Field) : ChainResult :=
  let r1 := runValidationType f .change
  if !r1.1 then ⟨false, r1.2.1, r1.2.2, none⟩
  else
    let r2 := runValidationType r1.2.1 .blur
    if !r2.1 then ⟨false, r2.2.1, r1.2.2 ++ r2.2.2, none⟩
    else
      let r3 := runValidationType r2.2.1 .submitPhase
      if !r3.1 then ⟨false, r3.2.1, r1.2.2 ++ r2.2.2 ++ r3.2.2, none⟩
      else if r3.2.1.errors.length > 0 then
        ⟨false, r3.2.1, r1.2.2 ++ r2.2.2 ++ r3.2.2, none⟩
      else
        ⟨true, r3.2.1, r1.2.2 ++ r2.2.2 ++ r3.2.2,
          some (r3.2.1.props.name, r3.2.1.value)⟩

/-- The form configuration: the optional user submit callback (which may
throw) and the `submitWhenInvalid` policy flag (default `false`). -/
structure FormConfig where
  onSubmitCb : Option (Value → FormArg → Except ThrownError Unit)
  submitWhenInvalid : Bool

/-- The projection writes of the per-field chains in completion order:
`order` lists registry indices in the order the per-field promise chains
reached their `fillPath` call. Only passing chains write. -/
def chainWrites (fields : List Field) (order : List Nat) : List (String × Value) :=
  order.filterMap (fun i =>
    match (fields.map fieldChain).get? i with
    | some r => r.write
    | none => none)

/-- The `values` object assembled during `submit`: the chain writes
folded into an initially empty object. -/
def submitValues (fields : List Field) (order : List Nat) : Value :=
  (chainWrites fields order).foldl (fun acc w => fillPath acc w.1 w.2)
    (Value.vobj [])

/-- `submit` (form.tsx lines 231-274): set the submitted flag, run every
per-field chain, assemble `values` from the passing fields (the write
order is the chain completion order), gate on `submitWhenInvalid`, then
invoke the user callback with `values` and the internal base object; a
throwing callback rejects the promise, which is modelled by
`Except.error`. The derived-state cache is not touched. -/
def submitRun (cfg : FormConfig) (st : FormState) (order : List Nat) :
    Except ThrownError (Bool × FormState × List Event) :=
  let st1 := { st with isSubmitted := true }
  let results := st1.fields.map fieldChain
  let st2 := { st1 with fields := results.map (fun r => r.field) }
  let chainEvents := (results.map (fun r => r.events)).flatten
  let values := submitValues st1.fields order
  let allValid := results.all (fun r => r.passed)
  if !cfg.submitWhenInvalid && !allValid then
    Except.ok (false, st2, chainEvents)
  else
    match cfg.onSubmitCb with
    | none => Except.ok (true, st2, chainEvents)
    | some cb =>
      match cb values baseFormArg with
      | .ok _ =>
        Except.ok (true, st2,
          chainEvents ++ [Event.callbackRun values baseFormArg.submitMember])
      | .error e => Except.error e

/-- The `submit` member of the internal base object (form.tsx line 214):
`() => Promise.resolve(true)` — it always resolves `true`, runs no
validator and invokes no callback, and leaves the state untouched. -/
def stubSubmit (st : FormState) : Bool × FormState × List Event :=
  (true, st, [])

/-- The `submit` member of the public handle (form.tsx line 286) is the
real submit operation. -/
def publicSubmit : FormConfig → FormState → List Nat →
    Except ThrownError (Bool × FormState × List Event) :=
  submitRun

/-- C9 fixture: a state whose isValid slot was read (cached `true`,
armed) and whose single field is dirty. -/
def c9ex : FormState :=
  { fields := [mkField "a" (Value.vstr "x")]
    cache :=
      { initialCache with isValidCache := some true, rerenderIsValid := true }
    isSubmitted := false }

/-- A field literally named "list[0]". -/
def c8f1 : Field :=
  { mkField "list[0]" (Value.vstr "x") with
    normalizedDotName := normalizedName "list[0]" }

/-- A field literally named "list.0"; its normalized dotted name
coincides with that of `c8f1`. -/
def c8f2 : Field :=
  { mkField "list.0" (Value.vstr "y") with
    normalizedDotName := normalizedName "list.0" }

/-- The counterexample registry: two distinct live handles with distinct
literal names but the same normalized dotted name. -/
def c8fields : List Field := [c8f1, c8f2]

/-- C3 fixture: an onChange validator that always throws a plain
string. -/
def c3exV : Validator := fun _ _ => Except.error (ThrownError.plain "fail")

/-- C3 fixture: a field carrying only the failing onChange validator. -/
def c3exF : Field :=
  { mkField "f" (Value.vstr "x") with
    props :=
      { (mkField "f" (Value.vstr "x")).props with
        onChangeValidate := some c3exV } }

/-- C5 fixture: a form whose single field always throws on change and
whose callback never throws. -/
def c5exF : Field :=
  { mkField "a" (Value.vstr "x") with
    props :=
      { (mkField "a" (Value.vstr "x")).props with
        onChangeValidate :=
          some (fun _ _ => Except.error (ThrownError.plain "boom")) } }

/-- C5 fixture: a configuration whose callback always resolves. -/
def c5cfg : FormConfig :=
  { onSubmitCb := some (fun _ _ => Except.ok ()), submitWhenInvalid := false }

/-- C2 fixture: a failing field next to a passing one. -/
def c2exPass : Field := mkField "ok" (Value.vstr "v")

/-- C10 fixture: a field whose onChange validator always fails. -/
def c10f : Field :=
  { mkField "g" (Value.vstr "x") with
    props :=
      { (mkField "g" (Value.vstr "x")).props with
        onChangeValidate :=
          some (fun _ _ => Except.error (ThrownError.plain "invalid")) } }

/-- C10 fixture: default policy, no callback. -/
def c10cfg : FormConfig := { onSubmitCb := none, submitWhenInvalid := false }

/-- C10 fixture: a state on which the real submit resolves `false`. -/
def c10st : FormState := initState [c10f]

/-- C6 fixture: the four-field registry "a", "b.c", "list[0]",
"list[1]", all passing (no validators, no errors). -/
def c6fields (va vb v0 v1 : Value) : List Field :=
  [mkField "a" va, mkField "b.c" vb, mkField "list[0]" v0, mkField "list[1]" v1]

/-- C6 fixture: a configuration with a normally-returning callback. -/
def c6cfg : FormConfig :=
  { onSubmitCb := some (fun _ _ => Except.ok ()), submitWhenInvalid := false }

/-- The structured result the claim requires:
`{a: va, b: {c: vb}, list: [v0, v1]}`. -/
def c6expected (va vb v0 v1 : Value) : Value :=
  Value.vobj
    [("a", va), ("b", Value.vobj [("c", vb)]),
      ("list", Value.varr [v0, v1])]

/-- C4 counterexample fixture: a single dirty field. -/
def c4exF : Field := { mkField "d" (Value.vstr "x") with isDirty := true }

/-- C4 counterexample fixture: its initial form state. -/
def c4ex : FormState := initState [c4exF]

/-! ## Claim C1: isValid aggregation -/

/-- C1: for every registry of fields, `getValidBoolean` (the aggregate
behind the isValid getter) returns `true` iff every field in the
registry has an empty error list; in particular the empty registry is
valid. -/
theorem c1_isValid_iff_all_errors_empty (fields : List Field) :
    (getValidBoolean fields = true ↔ ∀ f ∈ fields, f.errors = []) ∧
      getValidBoolean ([] : List Field) = true := by
  refine ⟨?_, rfl⟩
  unfold getValidBoolean
  rcases fields with _ | ⟨f, rest⟩
  · simp
  · simp [List.all_eq_true, List.length_eq_zero]

/-- C1 witness: a registry with one clean field is valid, and a registry
containing a field with an error is not. -/
theorem c1_witness :
    getValidBoolean [mkField "a" (Value.vstr "x")] = true ∧
      getValidBoolean [{ mkField "a" (Value.vstr "x") with errors := ["bad"] }] ≠ true := by
  constructor
  · exact (c1_isValid_iff_all_errors_empty [mkField "a" (Value.vstr "x")]).1.mpr
      (by intro f hf; simp only [List.mem_singleton] at hf; subst hf; rfl)
  · intro h
    have := (c1_isValid_iff_all_errors_empty
        [{ mkField "a" (Value.vstr "x") with errors := ["bad"] }]).1.mp h
      { mkField "a" (Value.vstr "x") with errors := ["bad"] } (by simp)
    simp at this

/-! ## Claim C7: reset -/

/-- C7: `reset` replaces every field value with the declared reset value
(`resetWithValue || initialValue`, with JavaScript falsy semantics),
falling back to the empty list for a list-shaped value and to the empty
string otherwise; it then sets the dirty and touched caches to `false`
and the errors cache to the not-yet-computed state; it is safe on an
empty registry (the model returns the new state, mirroring a `void`
return). -/
theorem c7_reset (st : FormState) :
    (reset st).fields = st.fields.map resetField ∧
    (∀ f ∈ st.fields,
      ((∃ xs, f.value = Value.varr xs) →
        (resetField f).value =
          jsOrD (jsOrV f.props.resetWithValue f.props.initialValue) (Value.varr [])) ∧
      ((∀ xs, f.value ≠ Value.varr xs) →
        (resetField f).value =
          jsOrD (jsOrV f.props.resetWithValue f.props.initialValue) (Value.vstr ""))) ∧
    (reset st).cache.isDirtyCache = some false ∧
    (reset st).cache.isTouchedCache = some false ∧
    (reset st).cache.errorsCache = none ∧
    (st.fields = [] → (reset st).fields = []) := by
  refine ⟨rfl, ?_, rfl, rfl, rfl, ?_⟩
  · intro f _
    constructor
    · rintro ⟨xs, hxs⟩
      unfold resetField
      rw [hxs]
    · intro hnot
      unfold resetField
      cases hv : f.value with
      | varr xs => exact absurd hv (hnot xs)
      | vstr s => rfl
      | vnum n => rfl
      | vbool b => rfl
      | vnull => rfl
      | vobj kvs => rfl
  · intro h
    simp [reset, h]

/-- C7 witness: resetting a two-field state (an array-valued field with
a declared reset value and a scalar field without one) yields the reset
values and the cleared caches. -/
theorem c7_witness :
    (reset (initState [])).fields = [] ∧
      (reset (initState [])).cache.errorsCache = none ∧
      (reset (initState [])).cache.isDirtyCache = some false := by
  refine ⟨(c7_reset (initState [])).2.2.2.2.2 rfl,
    (c7_reset (initState [])).2.2.2.2.1, (c7_reset (initState [])).2.2.1⟩

/-! ## Claim C9: reset leaves the isValid cache alone -/

/-- C9: `reset` leaves the isValid cache slot (and all four armed flags)
unchanged; an isValid slot read before reset keeps returning the
pre-reset cached value afterwards, until a recompute on the armed slot
republishes a fresh aggregate. -/
theorem c9_reset_keeps_isValid_cache (st : FormState) (b : Bool)
    (h : st.cache.isValidCache = some b) :
    (reset st).cache.isValidCache = some b ∧
    (isValidGetter (reset st)).1 = b ∧
    (reset st).cache.rerenderErrors = st.cache.rerenderErrors ∧
    (reset st).cache.rerenderIsValid = st.cache.rerenderIsValid ∧
    (reset st).cache.rerenderIsDirty = st.cache.rerenderIsDirty ∧
    (reset st).cache.rerenderIsTouched = st.cache.rerenderIsTouched ∧
    (st.cache.rerenderIsValid = true →
      (recomputeErrors (reset st)).1.cache.isValidCache =
        some (getValidBoolean ((reset st).fields))) := by
  have h1 : (reset st).cache.isValidCache = some b := h
  refine ⟨h1, ?_, rfl, rfl, rfl, rfl, ?_⟩
  · unfold isValidGetter
    rw [h1]
  · intro hv
    have hv1 : (reset st).cache.rerenderIsValid = true := hv
    unfold recomputeErrors
    by_cases he : (reset st).cache.rerenderErrors = true <;> simp [he, hv1]

/-- C9 witness: instantiating the theorem at the fixture. -/
theorem c9_witness :
    (reset c9ex).cache.isValidCache = some true ∧
    (isValidGetter (reset c9ex)).1 = true ∧
    (reset c9ex).cache.rerenderErrors = c9ex.cache.rerenderErrors ∧
    (reset c9ex).cache.rerenderIsValid = c9ex.cache.rerenderIsValid ∧
    (reset c9ex).cache.rerenderIsDirty = c9ex.cache.rerenderIsDirty ∧
    (reset c9ex).cache.rerenderIsTouched = c9ex.cache.rerenderIsTouched ∧
    (c9ex.cache.rerenderIsValid = true →
      (recomputeErrors (reset c9ex)).1.cache.isValidCache =
        some (getValidBoolean ((reset c9ex).fields))) :=
  c9_reset_keeps_isValid_cache c9ex true rfl

/-! ## Claim C8: name resolution -/

/-- `find?` returns the designated element when it is a match and every
match in the list is that element. -/
theorem find_eq_of_unique {α : Type} (p : α → Bool) (l : List α) (a : α)
    (ha : a ∈ l) (hpa : p a = true)
    (huniq : ∀ b ∈ l, p b = true → b = a) : l.find? p = some a := by
  induction l with
  | nil => cases ha
  | cons x xs ih =>
    by_cases hx : p x = true
    · have hxa : x = a := huniq x (List.mem_cons_self x xs) hx
      subst hxa
      simp [List.find?_cons, hx]
    · have hax : a ≠ x := fun h => hx (h ▸ hpa)
      have ha2 : a ∈ xs := by
        rcases List.mem_cons.mp ha with h | h
        · exact absurd h hax
        · exact h
      have hrec := ih ha2 (fun b hb hpb => huniq b (List.mem_cons_of_mem _ hb) hpb)
      simpa [List.find?_cons, hx] using hrec

/-- C8 counterexample: in the registry `[c8f1, c8f2]`, the query
"list.0" is an equivalent path for the registered field `c8f1` (both
normalize to "list.0"), yet `getFieldValue` resolves the literal name
"list[0]" to `c8f1` and the equivalent path "list.0" to the other
handle `c8f2`, because exact literal-name equality wins first. So the
two lookups do not resolve to the same handle, refuting the claim as
stated. -/
theorem c8_counterexample :
    normalizedName "list.0" = normalizedName "list[0]" ∧
    c8f1.normalizedDotName = normalizedName c8f1.props.name ∧
    c8f2.normalizedDotName = normalizedName c8f2.props.name ∧
    (getFieldValue c8fields "list[0]").map (fun f => f.props.name) = some "list[0]" ∧
    (getFieldValue c8fields "list.0").map (fun f => f.props.name) = some "list.0" ∧
    (getFieldValue c8fields "list[0]").map (fun f => f.props.name) ≠
      (getFieldValue c8fields "list.0").map (fun f => f.props.name) := by
  refine ⟨rfl, rfl, rfl, rfl, rfl, ?_⟩
  intro h
  simp only [getFieldValue, c8fields] at h
  revert h
  decide

/-- C8 (amended): lookup first tries exact literal-name equality, then
falls back to comparing the normalized dotted form of the query against
each handle precomputed normalized name, and resolves to `none` (never
raising) when both fail; and provided no other registered handle shares
the queried field normalized dotted name, every query normalizing to
that dotted form — the literal name included — resolves to that same
handle. -/
theorem c8_amended_name_resolution (fields : List Field) (f : Field)
    (hf : f ∈ fields)
    (hwf : ∀ g ∈ fields, g.normalizedDotName = normalizedName g.props.name)
    (huniq : ∀ g ∈ fields, g.normalizedDotName = f.normalizedDotName → g = f) :
    (∀ q, normalizedName q = f.normalizedDotName →
      getFieldValue fields q = some f) ∧
    (∀ q, (∀ g ∈ fields, g.props.name ≠ q) →
      (∀ g ∈ fields, g.normalizedDotName ≠ normalizedName q) →
      getFieldValue fields q = none) := by
  constructor
  · intro q hq
    unfold getFieldValue
    cases hfind : fields.find? (fun g => g.props.name == q) with
    | some g =>
      have hg1 := List.find?_some hfind
      have hg2 : g ∈ fields := List.mem_of_find?_eq_some hfind
      have hg3 : g.props.name = q := by
        simpa only [beq_iff_eq] using hg1
      have hg4 : g.normalizedDotName = f.normalizedDotName := by
        rw [hwf g hg2, hg3, hq]
      have hg5 : g = f := huniq g hg2 hg4
      simp [hg5]
    | none =>
      simp only []
      apply find_eq_of_unique
      · exact hf
      · exact beq_iff_eq.mpr hq.symm
      · intro b hb hpb
        have hb2 : b.normalizedDotName = normalizedName q := by
          simpa only [beq_iff_eq] using hpb
        exact huniq b hb (by rw [hb2, hq])
  · intro q h1 h2
    unfold getFieldValue
    have hn1 : fields.find? (fun g => g.props.name == q) = none := by
      apply List.find?_eq_none.mpr
      intro g hg
      simp only [beq_iff_eq]
      exact h1 g hg
    rw [hn1]
    apply List.find?_eq_none.mpr
    intro g hg
    simp only [beq_iff_eq]
    exact h2 g hg

/-- C8 witness: in the one-field registry `[c8f1]` the equivalent dotted
path "list.0" resolves to the handle registered as "list[0]", and a
fully unrelated query resolves to `none`. -/
theorem c8_witness :
    getFieldValue [c8f1] "list.0" = some c8f1 ∧
      getFieldValue [c8f1] "nope" = none := by
  have h := c8_amended_name_resolution [c8f1] c8f1 (by simp)
    (by intro g hg; simp only [List.mem_singleton] at hg; subst hg; rfl)
    (by intro g hg _; simpa using hg)
  refine ⟨h.1 "list.0" (by rfl), h.2 "nope" ?_ ?_⟩
  · intro g hg
    simp only [List.mem_singleton] at hg
    subst hg
    decide
  · intro g hg
    simp only [List.mem_singleton] at hg
    subst hg
    decide

/-! ## Claim C3: validation phase order and short-circuit -/

/-- Equation: a phase with no declared validator passes with no
invocation. -/
theorem runType_none (f : Field) (p : Phase) (h : validatorFor f p = none) :
    runValidationType f p = (true, f, []) := by
  unfold runValidationType
  simp only [h]

/-- Equation: a passing validator leaves the field untouched and emits
one invocation event carrying the base-object submit member. -/
theorem runType_ok (f : Field) (p : Phase) (v : Validator) (u : Unit)
    (hv : validatorFor f p = some v)
    (hr : v f.value baseFormArg = Except.ok u) :
    runValidationType f p =
      (true, f, [Event.validatorRun f.props.name p SubmitMember.stub]) := by
  unfold runValidationType
  simp only [hv, hr]
  rfl

/-- Equation: a throwing validator stores the normalized error list on
the field, fails the phase and emits one invocation event. -/
theorem runType_err (f : Field) (p : Phase) (v : Validator) (e : ThrownError)
    (hv : validatorFor f p = some v)
    (hr : v f.value baseFormArg = Except.error e) :
    runValidationType f p =
      (false, { f with errors := getValidationError e },
        [Event.validatorRun f.props.name p SubmitMember.stub]) := by
  unfold runValidationType
  simp only [hv, hr]
  rfl

/-- A phase run emits either no event (no declared validator) or exactly
one invocation event for its own phase. -/
theorem runType_events (f : Field) (p : Phase) :
    (runValidationType f p).2.2 = [] ∨
      ∃ n, (runValidationType f p).2.2 =
        [Event.validatorRun n p SubmitMember.stub] := by
  cases hv : validatorFor f p with
  | none => left; rw [runType_none f p hv]
  | some v =>
    cases hr : v f.value baseFormArg with
    | error e => right; exact ⟨_, by rw [runType_err f p v e hv hr]⟩
    | ok u => right; exact ⟨_, by rw [runType_ok f p v u hv hr]⟩

/-- The phases of the events of a phase run form a sublist of the
singleton of that phase. -/
theorem runType_phases_sublist (f : Field) (p : Phase) :
    List.Sublist ((runValidationType f p).2.2.filterMap Event.phaseOf) [p] := by
  rcases runType_events f p with h | ⟨n, h⟩ <;>
    rw [h] <;> simp [Event.phaseOf]

/-- C3: during submit, every per-field chain runs its phases strictly in
the order onChange, onBlur, onSubmit (each invoked at most once — the
invoked phases form a sublist of that order); a field whose onChange
validator fails invokes no onBlur and no onSubmit validator (its event
trace is exactly the single onChange invocation) and the chain reports
failure; a field with no declared validator for a phase passes that
phase without any invocation. `submitRun` runs `fieldChain` for every
registered field. -/
theorem c3_phase_order_short_circuit :
    (∀ f, List.Sublist ((fieldChain f).events.filterMap Event.phaseOf)
      [Phase.change, Phase.blur, Phase.submitPhase]) ∧
    (∀ f v e, f.props.onChangeValidate = some v →
      v f.value baseFormArg = Except.error e →
      (fieldChain f).passed = false ∧
      (fieldChain f).events =
        [Event.validatorRun f.props.name Phase.change SubmitMember.stub]) ∧
    (∀ f p, validatorFor f p = none → runValidationType f p = (true, f, [])) := by
  refine ⟨?_, ?_, ?_⟩
  · intro f
    have h1 := runType_phases_sublist f .change
    have h2 := runType_phases_sublist (runValidationType f .change).2.1 .blur
    have h3 := runType_phases_sublist
      (runValidationType (runValidationType f .change).2.1 .blur).2.1 .submitPhase
    unfold fieldChain
    dsimp only
    split
    · exact h1.trans (by decide)
    · split
      · rw [List.filterMap_append]
        exact (List.Sublist.append h1 h2).trans (by decide)
      · split
        · rw [List.filterMap_append, List.filterMap_append]
          exact (List.Sublist.append (List.Sublist.append h1 h2) h3).trans
            (by decide)
        · split
          · rw [List.filterMap_append, List.filterMap_append]
            exact (List.Sublist.append (List.Sublist.append h1 h2) h3).trans
              (by decide)
          · rw [List.filterMap_append, List.filterMap_append]
            exact (List.Sublist.append (List.Sublist.append h1 h2) h3).trans
              (by decide)
  · intro f v e hv he
    have h1 : runValidationType f .change =
        (false, { f with errors := getValidationError e },
          [Event.validatorRun f.props.name Phase.change SubmitMember.stub]) :=
      runType_err f .change v e hv he
    unfold fieldChain
    rw [h1]
    exact ⟨rfl, rfl⟩
  · intro f p hp
    exact runType_none f p hp

/-- C3 witness: the fixture field fails its chain with exactly one
onChange invocation, and a phase with no declared validator passes. -/
theorem c3_witness :
    ((fieldChain c3exF).passed = false ∧
      (fieldChain c3exF).events =
        [Event.validatorRun c3exF.props.name Phase.change SubmitMember.stub]) ∧
      runValidationType c3exF Phase.blur = (true, c3exF, []) :=
  ⟨c3_phase_order_short_circuit.2.1 c3exF c3exV (ThrownError.plain "fail") rfl rfl,
    c3_phase_order_short_circuit.2.2 c3exF Phase.blur rfl⟩

/-! ## Claims C5 and C2: error propagation and submit gating -/

/-- Every event of a phase run is a validator invocation (never a
callback) carrying the stub submit member of the base object. -/
theorem runType_mem (f : Field) (p : Phase) :
    ∀ ev ∈ (runValidationType f p).2.2,
      ev.isCallback = false ∧ ev.formArgOf = SubmitMember.stub := by
  intro ev hev
  rcases runType_events f p with h | ⟨n, h⟩ <;> rw [h] at hev
  · cases hev
  · have hev2 := List.mem_singleton.mp hev
    subst hev2
    exact ⟨rfl, rfl⟩

/-- Every event of a per-field chain is a validator invocation carrying
the stub submit member. -/
theorem chain_mem (f : Field) :
    ∀ ev ∈ (fieldChain f).events,
      ev.isCallback = false ∧ ev.formArgOf = SubmitMember.stub := by
  intro ev hev
  have m1 := runType_mem f .change
  have m2 := runType_mem (runValidationType f .change).2.1 .blur
  have m3 := runType_mem
    (runValidationType (runValidationType f .change).2.1 .blur).2.1 .submitPhase
  unfold fieldChain at hev
  dsimp only at hev
  split at hev
  · exact m1 ev hev
  · split at hev
    · rcases List.mem_append.mp hev with h | h
      · exact m1 ev h
      · exact m2 ev h
    · split at hev
      · rcases List.mem_append.mp hev with h | h
        · rcases List.mem_append.mp h with h2 | h2
          · exact m1 ev h2
          · exact m2 ev h2
        · exact m3 ev h
      · split at hev
        · rcases List.mem_append.mp hev with h | h
          · rcases List.mem_append.mp h with h2 | h2
            · exact m1 ev h2
            · exact m2 ev h2
          · exact m3 ev h
        · rcases List.mem_append.mp hev with h | h
          · rcases List.mem_append.mp h with h2 | h2
            · exact m1 ev h2
            · exact m2 ev h2
          · exact m3 ev h

/-- Every event emitted by the per-field chains of a submission is a
validator invocation carrying the stub submit member. -/
theorem chainEvents_mem (fields : List Field) :
    ∀ ev ∈ ((fields.map fieldChain).map (fun r => r.events)).flatten,
      ev.isCallback = false ∧ ev.formArgOf = SubmitMember.stub := by
  intro ev hev
  rcases List.mem_flatten.mp hev with ⟨l, hl, hev2⟩
  rcases List.mem_map.mp hl with ⟨r, hr, rfl⟩
  rcases List.mem_map.mp hr with ⟨f, hf, rfl⟩
  exact chain_mem f ev hev2

/-- The chain events of a submission contain no callback values. -/
theorem chainEvents_no_callback_values (fields : List Field) :
    (((fields.map fieldChain).map (fun r => r.events)).flatten.filterMap
      Event.callbackValues) = [] := by
  rw [List.filterMap_eq_nil_iff]
  intro ev hev
  have h := chainEvents_mem fields ev hev
  cases ev with
  | validatorRun n p m => rfl
  | callbackRun v m => cases h.1

/-- C5: a validator throwing during submit never rejects the submit
promise — with no callback, or with a callback that returns normally,
`submitRun` always resolves (`Except.ok`), whatever the validators do;
the only rejection `submitRun` can produce is one thrown by the
caller-supplied callback, propagated verbatim; and a throwing validator
has its thrown value normalized by `getValidationError` into the field
error list, surfaced only through the field state (aggregated by
`getErrors` / `getValidBoolean`). -/
theorem c5_rejection_only_from_callback :
    (∀ cfg st o e, submitRun cfg st o = Except.error e →
      ∃ cb, cfg.onSubmitCb = some cb ∧
        cb (submitValues st.fields o) baseFormArg = Except.error e) ∧
    (∀ cfg st o, cfg.onSubmitCb = none →
      ∃ r, submitRun cfg st o = Except.ok r) ∧
    (∀ cfg st o cb, cfg.onSubmitCb = some cb →
      (∀ v m, cb v m = Except.ok ()) →
      ∃ r, submitRun cfg st o = Except.ok r) ∧
    (∀ f p v e, validatorFor f p = some v →
      v f.value baseFormArg = Except.error e →
      (runValidationType f p).2.1.errors = getValidationError e) := by
  refine ⟨?_, ?_, ?_, ?_⟩
  · intro cfg st o e h
    obtain ⟨fs, cache, sub⟩ := st
    unfold submitRun at h
    dsimp only at h
    split at h
    · cases h
    · split at h
      · cases h
      next cb hcb =>
        split at h
        next u hr => cases h
        next e2 hr =>
          cases h
          exact ⟨cb, hcb, hr⟩
  · intro cfg st o hcb
    obtain ⟨fs, cache, sub⟩ := st
    unfold submitRun
    dsimp only
    split
    · exact ⟨_, rfl⟩
    · simp only [hcb]
      exact ⟨_, rfl⟩
  · intro cfg st o cb hcb hok
    obtain ⟨fs, cache, sub⟩ := st
    unfold submitRun
    dsimp only
    split
    · exact ⟨_, rfl⟩
    · simp only [hcb, hok]
      exact ⟨_, rfl⟩
  · intro f p v e hv hr
    rw [runType_err f p v e hv hr]

/-- C5 witness: the fixture submission resolves in spite of the throwing
validator, and the thrown value lands, normalized, in the field error
list. -/
theorem c5_witness :
    (∃ r, submitRun c5cfg (initState [c5exF]) [0] = Except.ok r) ∧
      (runValidationType c5exF Phase.change).2.1.errors = ["boom"] :=
  ⟨c5_rejection_only_from_callback.2.2.1 c5cfg (initState [c5exF]) [0]
      (fun _ _ => Except.ok ()) rfl (fun _ _ => rfl),
    c5_rejection_only_from_callback.2.2.2 c5exF Phase.change
      (fun _ _ => Except.error (ThrownError.plain "boom"))
      (ThrownError.plain "boom") rfl rfl⟩

/-- C2: with `submitWhenInvalid = false` and at least one field whose
chain ends up failed, `submitRun` resolves `false` and the callback is
never invoked; a chain writes into the result exactly when it passed,
and what it writes is its field name and current value; and with
`submitWhenInvalid = true` and a normally-returning callback, the
callback is invoked with the assembled values of the passing fields
(`submitValues`) and the submission resolves `true`, whatever the
fields. -/
theorem c2_submit_gating :
    (∀ cfg st o, cfg.submitWhenInvalid = false →
      (∃ f ∈ st.fields, (fieldChain f).passed = false) →
      ∃ st2 evs, submitRun cfg st o = Except.ok (false, st2, evs) ∧
        evs.countP Event.isCallback = 0) ∧
    (∀ f, ((fieldChain f).write).isSome = true → (fieldChain f).passed = true) ∧
    (∀ f, (fieldChain f).passed = true →
      (fieldChain f).write =
        some ((fieldChain f).field.props.name, (fieldChain f).field.value)) ∧
    (∀ cfg st o cb, cfg.submitWhenInvalid = true → cfg.onSubmitCb = some cb →
      (∀ v m, cb v m = Except.ok ()) →
      ∃ st2 evs, submitRun cfg st o = Except.ok (true, st2, evs) ∧
        evs.filterMap Event.callbackValues = [submitValues st.fields o]) := by
  refine ⟨?_, ?_, ?_, ?_⟩
  · rintro cfg st o hswi ⟨f, hf, hfail⟩
    obtain ⟨fs, cache, sub⟩ := st
    have hvalid : ((fs.map fieldChain).all fun r => r.passed) = false := by
      rw [List.all_eq_false]
      exact ⟨fieldChain f, List.mem_map.mpr ⟨f, hf, rfl⟩, by simp [hfail]⟩
    unfold submitRun
    dsimp only
    simp only [hswi, hvalid, Bool.not_false, Bool.and_self, if_true]
    refine ⟨_, _, rfl, ?_⟩
    rw [List.countP_eq_zero]
    intro ev hev
    have h := chainEvents_mem fs ev hev
    simp [h.1]
  · intro f
    unfold fieldChain
    dsimp only
    split
    · intro h; cases h
    · split
      · intro h; cases h
      · split
        · intro h; cases h
        · split
          · intro h; cases h
          · intro h; rfl
  · intro f
    unfold fieldChain
    dsimp only
    split
    · intro h; cases h
    · split
      · intro h; cases h
      · split
        · intro h; cases h
        · split
          · intro h; cases h
          · intro h; rfl
  · intro cfg st o cb hswi hcb hok
    obtain ⟨fs, cache, sub⟩ := st
    unfold submitRun
    dsimp only
    simp only [hswi, hcb, hok, Bool.not_true, Bool.false_and, if_false]
    refine ⟨_, _, rfl, ?_⟩
    rw [List.filterMap_append, chainEvents_no_callback_values]
    rfl

/-- C2 witness: with the default policy a failing field makes the
submission resolve `false` with no callback invocation; with
`submitWhenInvalid` the callback receives the passing values and the
submission resolves `true`. -/
theorem c2_witness :
    (∃ st2 evs,
      submitRun c5cfg (initState [c2exPass, c5exF]) [0, 1] =
        Except.ok (false, st2, evs) ∧ evs.countP Event.isCallback = 0) ∧
    (∃ st2 evs,
      submitRun { c5cfg with submitWhenInvalid := true }
          (initState [c2exPass, c5exF]) [0, 1] =
        Except.ok (true, st2, evs) ∧
      evs.filterMap Event.callbackValues =
        [submitValues (initState [c2exPass, c5exF]).fields [0, 1]]) := by
  constructor
  · exact c2_submit_gating.1 c5cfg (initState [c2exPass, c5exF]) [0, 1] rfl
      ⟨c5exF, by simp [initState], by rfl⟩
  · exact c2_submit_gating.2.2.2 { c5cfg with submitWhenInvalid := true }
      (initState [c2exPass, c5exF]) [0, 1] (fun _ _ => Except.ok ()) rfl rfl
      (fun _ _ => rfl)

/-! ## Claim C10: the base object and its stub submit -/

/-- C10: the form object handed to validators and to the user callback
during a submission is the internal base object — every emitted event
carries its stub submit member — and that stub submit always resolves
`true` with no validator invocation, no callback invocation and no
state change; the real submit operation exposed on the public handle is
a different operation: on the fixture it resolves `false`. -/
theorem c10_base_object_stub_submit :
    baseFormArg.submitMember = SubmitMember.stub ∧
    (∀ st, stubSubmit st = (true, st, [])) ∧
    (∀ cfg st o r, submitRun cfg st o = Except.ok r →
      ∀ ev ∈ r.2.2, ev.formArgOf = SubmitMember.stub) ∧
    (publicSubmit c10cfg c10st []).toOption.map (fun r => r.1) = some false ∧
    (stubSubmit c10st).1 = true := by
  refine ⟨rfl, fun st => rfl, ?_, rfl, rfl⟩
  intro cfg st o r h ev hev
  obtain ⟨fs, cache, sub⟩ := st
  unfold submitRun at h
  dsimp only at h
  split at h
  · cases h
    exact (chainEvents_mem fs ev hev).2
  · split at h
    · cases h
      exact (chainEvents_mem fs ev hev).2
    next cb hcb =>
      split at h
      next u hr =>
        cases h
        rcases List.mem_append.mp hev with h2 | h2
        · exact (chainEvents_mem fs ev h2).2
        · have h3 := List.mem_singleton.mp h2
          subst h3
          rfl
      next e2 hr => cases h

/-- C10 witness: on the fixture submission (which emits exactly one
validator invocation event) the handed-out form object carries the stub
submit member. -/
theorem c10_witness :
    (Event.validatorRun "g" Phase.change SubmitMember.stub).formArgOf =
      SubmitMember.stub :=
  c10_base_object_stub_submit.2.2.1 c10cfg c10st []
    (false,
      { fields := [{ c10f with errors := ["invalid"] }]
        cache := initialCache
        isSubmitted := true },
      [Event.validatorRun "g" Phase.change SubmitMember.stub]) rfl
    (Event.validatorRun "g" Phase.change SubmitMember.stub)
    (List.mem_singleton.mpr rfl)

/-! ## Claim C6: deterministic projection -/

set_option maxHeartbeats 4000000 in
/-- C6: submitting the four-field fixture hands the callback exactly the
structured value `{a: va, b: {c: vb}, list: [v0, v1]}` and resolves
`true`, for every completion order of the per-field chains (every
permutation of the four `fillPath` writes). -/
theorem c6_deterministic_projection (va vb v0 v1 : Value) (o : List Nat)
    (ho : o.Perm [0, 1, 2, 3]) :
    (submitRun c6cfg (initState (c6fields va vb v0 v1)) o).toOption.map
        (fun r => (r.1, r.2.2.filterMap Event.callbackValues)) =
      some (true, [c6expected va vb v0 v1]) := by
  have hmem : o ∈ ([0, 1, 2, 3] : List Nat).permutations' :=
    List.mem_permutations'.mpr ho
  have hperm : ([0, 1, 2, 3] : List Nat).permutations' =
      [[0, 1, 2, 3], [1, 0, 2, 3], [1, 2, 0, 3], [1, 2, 3, 0], [0, 2, 1, 3],
        [2, 0, 1, 3], [2, 1, 0, 3], [2, 1, 3, 0], [0, 2, 3, 1], [2, 0, 3, 1],
        [2, 3, 0, 1], [2, 3, 1, 0], [0, 1, 3, 2], [1, 0, 3, 2], [1, 3, 0, 2],
        [1, 3, 2, 0], [0, 3, 1, 2], [3, 0, 1, 2], [3, 1, 0, 2], [3, 1, 2, 0],
        [0, 3, 2, 1], [3, 0, 2, 1], [3, 2, 0, 1], [3, 2, 1, 0]] := by decide
  rw [hperm] at hmem
  simp only [List.mem_cons, List.not_mem_nil, or_false] at hmem
  rcases hmem with rfl | rfl | rfl | rfl | rfl | rfl | rfl | rfl | rfl | rfl |
    rfl | rfl | rfl | rfl | rfl | rfl | rfl | rfl | rfl | rfl | rfl | rfl |
    rfl | rfl <;> rfl

/-- C6 witness: a concrete instantiation at one completion order. -/
theorem c6_witness :
    (submitRun c6cfg
        (initState (c6fields (Value.vstr "1") (Value.vstr "2") (Value.vstr "3")
          (Value.vstr "4"))) [2, 0, 3, 1]).toOption.map
        (fun r => (r.1, r.2.2.filterMap Event.callbackValues)) =
      some (true,
        [c6expected (Value.vstr "1") (Value.vstr "2") (Value.vstr "3")
          (Value.vstr "4")]) :=
  c6_deterministic_projection (Value.vstr "1") (Value.vstr "2") (Value.vstr "3")
    (Value.vstr "4") [2, 0, 3, 1] (by decide)

/-! ## Claim C4: lazy self-arming cache slots -/

/-- The armed flag of a slot is changed by no operation other than the
slot getter. -/
theorem flag_preserved (st : FormState) (op : Op) (s : Slot)
    (h : op ≠ s.getOp) :
    s.flag (stepOp st op).1.cache = s.flag st.cache := by
  obtain ⟨fs, ⟨ec, vc, dc, tc, re, rv, rd, rt⟩, sub⟩ := st
  cases op <;> cases s <;>
    first
    | exact absurd rfl h
    | rfl
    | (cases ec <;> rfl)
    | (cases vc <;> rfl)
    | (cases dc <;> rfl)
    | (cases tc <;> rfl)
    | (cases re <;> cases rv <;> rfl)
    | (cases rd <;> rfl)
    | (cases rt <;> rfl)

/-- The effect of a getter call on its own armed flag: the errors and
isValid getters arm unconditionally, the isDirty and isTouched getters
arm exactly when their cache is uninitialized. -/
theorem getter_flag (st : FormState) (s : Slot) :
    s.flag (stepOp st s.getOp).1.cache =
      (s.flag st.cache || s.armsOn st.cache) := by
  obtain ⟨fs, ⟨ec, vc, dc, tc, re, rv, rd, rt⟩, sub⟩ := st
  cases s
  · cases ec <;>
      simp [stepOp, Slot.getOp, errorGetter, Slot.flag, Slot.armsOn]
  · cases vc <;>
      simp [stepOp, Slot.getOp, isValidGetter, Slot.flag, Slot.armsOn]
  · cases dc <;>
      simp [stepOp, Slot.getOp, isDirtyGetter, Slot.flag, Slot.armsOn]
  · cases tc <;>
      simp [stepOp, Slot.getOp, isTouchedGetter, Slot.flag, Slot.armsOn]

/-- Armed flags are never cleared by any operation. -/
theorem flag_monotone (st : FormState) (op : Op) (s : Slot)
    (h : s.flag st.cache = true) :
    s.flag (stepOp st op).1.cache = true := by
  by_cases hop : op = s.getOp
  · subst hop
    rw [getter_flag, h, Bool.true_or]
  · rw [flag_preserved st op s hop]
    exact h

/-- An operation that is not the slot getter computes the slot aggregate
only when the slot is already armed. -/
theorem comp_requires (st : FormState) (op : Op) (s : Slot)
    (h1 : s.flag st.cache = false) (h2 : op ≠ s.getOp) :
    s ∉ (stepOp st op).2 := by
  obtain ⟨fs, ⟨ec, vc, dc, tc, re, rv, rd, rt⟩, sub⟩ := st
  cases op <;> cases s <;>
    simp only [Slot.flag] at h1 <;>
    solve
    | exact absurd rfl h2
    | (simp [stepOp, reset, runOps])
    | (cases ec <;> simp [stepOp, errorGetter])
    | (cases vc <;> simp [stepOp, isValidGetter])
    | (cases dc <;> simp [stepOp, isDirtyGetter])
    | (cases tc <;> simp [stepOp, isTouchedGetter])
    | (subst h1 <;> cases re <;> simp [stepOp, recomputeErrors])
    | (subst h1 <;> cases rv <;> simp [stepOp, recomputeErrors])
    | (cases re <;> cases rv <;> simp [stepOp, recomputeErrors])
    | (subst h1 <;> simp [stepOp, recomputeIsDirty, recomputeIsTouched])
    | (cases rd <;> simp [stepOp, recomputeIsDirty])
    | (cases rt <;> simp [stepOp, recomputeIsTouched])

/-- A slot with an uninitialized cache and a clear flag keeps its cache
uninitialized under any operation other than its getter and reset. -/
theorem cacheNone_preserved (st : FormState) (op : Op) (s : Slot)
    (hop : op ≠ Op.resetOp) (hg : op ≠ s.getOp)
    (hf : s.flag st.cache = false) (h : s.cacheNone st.cache = true) :
    s.cacheNone (stepOp st op).1.cache = true := by
  obtain ⟨fs, ⟨ec, vc, dc, tc, re, rv, rd, rt⟩, sub⟩ := st
  cases op with
  | resetOp => exact absurd rfl hop
  | setFields fs2 => exact h
  | getErrorsOp =>
    cases s with
    | errors => exact absurd rfl hg
    | isValid => cases ec <;> exact h
    | isDirty => cases ec <;> exact h
    | isTouched => cases ec <;> exact h
  | getIsValidOp =>
    cases s with
    | isValid => exact absurd rfl hg
    | errors => cases vc <;> exact h
    | isDirty => cases vc <;> exact h
    | isTouched => cases vc <;> exact h
  | getIsDirtyOp =>
    cases s with
    | isDirty => exact absurd rfl hg
    | errors => cases dc <;> exact h
    | isValid => cases dc <;> exact h
    | isTouched => cases dc <;> exact h
  | getIsTouchedOp =>
    cases s with
    | isTouched => exact absurd rfl hg
    | errors => cases tc <;> exact h
    | isValid => cases tc <;> exact h
    | isDirty => cases tc <;> exact h
  | recomputeErrorsOp =>
    cases s with
    | errors =>
      have hre : re = false := hf
      subst hre
      cases rv <;> exact h
    | isValid =>
      have hrv : rv = false := hf
      subst hrv
      cases re <;> exact h
    | isDirty => cases re <;> cases rv <;> exact h
    | isTouched => cases re <;> cases rv <;> exact h
  | recomputeIsDirtyOp =>
    cases s with
    | isDirty =>
      have hrd : rd = false := hf
      subst hrd
      exact h
    | errors => cases rd <;> exact h
    | isValid => cases rd <;> exact h
    | isTouched => cases rd <;> exact h
  | recomputeIsTouchedOp =>
    cases s with
    | isTouched =>
      have hrt : rt = false := hf
      subst hrt
      exact h
    | errors => cases rt <;> exact h
    | isValid => cases rt <;> exact h
    | isDirty => cases rt <;> exact h

/-- A getter call on a slot satisfying the armed-or-uninitialized
invariant leaves the slot armed. -/
theorem get_arms (st : FormState) (s : Slot)
    (h : s.flag st.cache = true ∨ s.cacheNone st.cache = true) :
    s.flag (stepOp st s.getOp).1.cache = true := by
  rw [getter_flag]
  rcases h with h | h
  · rw [h, Bool.true_or]
  · have ha : s.armsOn st.cache = true := by
      cases s <;>
        first
        | rfl
        | (simp only [Slot.armsOn]; simpa only [Slot.cacheNone] using h)
    rw [ha, Bool.or_true]

/-- The armed-or-uninitialized invariant survives every operation other
than reset. -/
theorem inv_preserved (st : FormState) (op : Op) (s : Slot)
    (hop : op ≠ Op.resetOp)
    (h : s.flag st.cache = true ∨ s.cacheNone st.cache = true) :
    s.flag (stepOp st op).1.cache = true ∨
      s.cacheNone (stepOp st op).1.cache = true := by
  by_cases hf : s.flag st.cache = true
  · exact Or.inl (flag_monotone st op s hf)
  · have hfl : s.flag st.cache = false := by
      cases hb : s.flag st.cache
      · rfl
      · exact absurd hb hf
    rcases h with h | h
    · exact absurd h hf
    · by_cases hg : op = s.getOp
      · subst hg
        exact Or.inl (get_arms st s (Or.inr h))
      · exact Or.inr (cacheNone_preserved st op s hop hg hfl h)

/-- A recompute entry point invoked while the slot is armed recomputes
the aggregate, records the computation and republishes the value, while
leaving the registry untouched. -/
theorem recompute_armed (st : FormState) (s : Slot)
    (h : s.flag st.cache = true) :
    s ∈ (stepOp st s.recomputeOp).2 ∧
      s.published st.fields (stepOp st s.recomputeOp).1.cache ∧
      (stepOp st s.recomputeOp).1.fields = st.fields := by
  obtain ⟨fs, ⟨ec, vc, dc, tc, re, rv, rd, rt⟩, sub⟩ := st
  cases s <;> simp only [Slot.flag] at h <;> subst h <;>
    solve
    | (simp [stepOp, Slot.recomputeOp, recomputeIsDirty, recomputeIsTouched,
        Slot.published])
    | (cases rv <;>
        simp [stepOp, Slot.recomputeOp, recomputeErrors, Slot.published])
    | (cases re <;>
        simp [stepOp, Slot.recomputeOp, recomputeErrors, Slot.published])

/-- `recomputeErrors` with both its slots unarmed is a strict no-op. -/
theorem recompute_noop_errors (st : FormState)
    (h1 : st.cache.rerenderErrors = false)
    (h2 : st.cache.rerenderIsValid = false) :
    stepOp st Op.recomputeErrorsOp = (st, []) := by
  obtain ⟨fs, c, sub⟩ := st
  simp_all [stepOp, recomputeErrors]

/-- `recomputeIsDirty` with its slot unarmed is a strict no-op. -/
theorem recompute_noop_dirty (st : FormState)
    (h : st.cache.rerenderIsDirty = false) :
    stepOp st Op.recomputeIsDirtyOp = (st, []) := by
  obtain ⟨fs, c, sub⟩ := st
  simp_all [stepOp, recomputeIsDirty]

/-- `recomputeIsTouched` with its slot unarmed is a strict no-op. -/
theorem recompute_noop_touched (st : FormState)
    (h : st.cache.rerenderIsTouched = false) :
    stepOp st Op.recomputeIsTouchedOp = (st, []) := by
  obtain ⟨fs, c, sub⟩ := st
  simp_all [stepOp, recomputeIsTouched]

/-- Unfolding a run over a trace from an arbitrary accumulator. -/
theorem runOps_acc (ops : List Op) (st : FormState) (l : List Slot) :
    (ops.foldl
        (fun acc op =>
          let r := stepOp acc.1 op
          (r.1, acc.2 ++ r.2))
        (st, l)) =
      ((runOps st ops).1, l ++ (runOps st ops).2) := by
  induction ops generalizing st l with
  | nil => simp [runOps]
  | cons op ops ih =>
    simp only [runOps, List.foldl_cons]
    rw [ih, ih]
    simp

/-- Unfolding a run over a nonempty trace. -/
theorem runOps_cons (st : FormState) (op : Op) (ops : List Op) :
    runOps st (op :: ops) =
      ((runOps (stepOp st op).1 ops).1,
        (stepOp st op).2 ++ (runOps (stepOp st op).1 ops).2) := by
  show (op :: ops).foldl _ (st, ([] : List Slot)) = _
  simp only [List.foldl_cons]
  rw [runOps_acc]
  simp

/-- A slot whose getter never appears in a trace keeps a clear flag and
is never computed during the run. -/
theorem lazy_aux (ops : List Op) (st : FormState) (s : Slot)
    (hflag : s.flag st.cache = false) (hops : s.getOp ∉ ops) :
    s.flag (runOps st ops).1.cache = false ∧ s ∉ (runOps st ops).2 := by
  induction ops generalizing st with
  | nil => exact ⟨hflag, by simp [runOps]⟩
  | cons op ops ih =>
    have hop : op ≠ s.getOp := fun hcontra =>
      hops (hcontra ▸ List.mem_cons_self op ops)
    rw [runOps_cons]
    have hflag2 : s.flag (stepOp st op).1.cache = false := by
      rw [flag_preserved st op s hop]
      exact hflag
    have hrest := ih (stepOp st op).1 hflag2
      (fun hmem => hops (List.mem_cons_of_mem _ hmem))
    refine ⟨hrest.1, ?_⟩
    intro hmem
    rcases List.mem_append.mp hmem with hmem2 | hmem2
    · exact comp_requires st op s hflag hop hmem2
    · exact hrest.2 hmem2

/-- A set armed flag survives a whole run. -/
theorem flag_stays (ops : List Op) (st : FormState) (s : Slot)
    (h : s.flag st.cache = true) : s.flag (runOps st ops).1.cache = true := by
  induction ops generalizing st with
  | nil => exact h
  | cons op ops ih =>
    rw [runOps_cons]
    exact ih (stepOp st op).1 (flag_monotone st op s h)

/-- In a reset-free trace containing the getter of a slot that satisfies
the armed-or-uninitialized invariant, the slot ends armed. -/
theorem arm_aux (ops : List Op) (st : FormState) (s : Slot)
    (hreset : Op.resetOp ∉ ops) (hget : s.getOp ∈ ops)
    (hinv : s.flag st.cache = true ∨ s.cacheNone st.cache = true) :
    s.flag (runOps st ops).1.cache = true := by
  induction ops generalizing st with
  | nil => cases hget
  | cons op ops ih =>
    rw [runOps_cons]
    by_cases hop : op = s.getOp
    · subst hop
      exact flag_stays ops (stepOp st s.getOp).1 s (get_arms st s hinv)
    · have hop2 : op ≠ Op.resetOp := fun hcontra =>
        hreset (hcontra ▸ List.mem_cons_self op ops)
      have hget2 : s.getOp ∈ ops := by
        rcases List.mem_cons.mp hget with hcontra | hmem
        · exact absurd hcontra.symm hop
        · exact hmem
      exact ih (stepOp st op).1
        (fun hmem => hreset (List.mem_cons_of_mem _ hmem)) hget2
        (inv_preserved st op s hop2 hinv)

/-- C4 (amended): over every operation trace from the initial state, a
slot aggregate is never computed before the first call of the slot
getter; a getter call arms the errors and isValid slots unconditionally
and arms the isDirty and isTouched slots exactly when their cache is
uninitialized — in particular, in any trace without reset the slot is
armed after its first getter call (a reset initializes the isDirty and
isTouched caches to `false`, so a first getter call after a reset does
not arm those slots); every recompute entry point invoked while a slot
it serves is armed recomputes that aggregate and republishes it; and a
recompute entry point whose slots are all unarmed is a strict no-op. -/
theorem c4_amended_lazy_cache :
    (∀ (fields : List Field) (ops : List Op) (s : Slot), s.getOp ∉ ops →
      s ∉ (runOps (initState fields) ops).2) ∧
    (∀ (st : FormState) (s : Slot), s.flag ((stepOp st s.getOp).1.cache) =
      (s.flag st.cache || s.armsOn st.cache)) ∧
    (∀ (fields : List Field) (ops : List Op) (s : Slot),
      Op.resetOp ∉ ops → s.getOp ∈ ops →
      s.flag (runOps (initState fields) ops).1.cache = true) ∧
    (∀ (st : FormState) (s : Slot), s.flag st.cache = true →
      s ∈ (stepOp st s.recomputeOp).2 ∧
        s.published st.fields (stepOp st s.recomputeOp).1.cache) ∧
    (∀ st, st.cache.rerenderErrors = false →
      st.cache.rerenderIsValid = false →
      stepOp st Op.recomputeErrorsOp = (st, [])) ∧
    (∀ st, st.cache.rerenderIsDirty = false →
      stepOp st Op.recomputeIsDirtyOp = (st, [])) ∧
    (∀ st, st.cache.rerenderIsTouched = false →
      stepOp st Op.recomputeIsTouchedOp = (st, [])) := by
  refine ⟨?_, getter_flag, ?_, ?_, recompute_noop_errors,
    recompute_noop_dirty, recompute_noop_touched⟩
  · intro fields ops s hops
    exact (lazy_aux ops (initState fields) s (by cases s <;> rfl) hops).2
  · intro fields ops s hreset hget
    exact arm_aux ops (initState fields) s hreset hget
      (Or.inr (by cases s <;> rfl))
  · intro st s h
    exact ⟨(recompute_armed st s h).1, (recompute_armed st s h).2.1⟩

/-- C4 counterexample: run `reset` and then the FIRST isDirty getter
call of the trace. The claim says the slot is armed after its first
getter call and that every later recompute recomputes; in fact the
getter finds the cache initialized to `false` by reset, returns that
stale value although the aggregate is `true`, leaves the slot unarmed,
and the subsequent `recomputeIsDirty` computes nothing and republishes
nothing. -/
theorem c4_counterexample :
    (runOps c4ex [Op.resetOp, Op.getIsDirtyOp]).1.cache.rerenderIsDirty =
      false ∧
    (isDirtyGetter (runOps c4ex [Op.resetOp]).1).1 = false ∧
    getFieldBoolean (runOps c4ex [Op.resetOp, Op.getIsDirtyOp]).1.fields
      BoolFieldName.dirty = true ∧
    (runOps c4ex [Op.resetOp, Op.getIsDirtyOp, Op.recomputeIsDirtyOp]).2 =
      [] ∧
    (runOps c4ex
        [Op.resetOp, Op.getIsDirtyOp, Op.recomputeIsDirtyOp]).1.cache.isDirtyCache =
      some false :=
  ⟨rfl, rfl, rfl, rfl, rfl⟩

/-- C4 witness: instantiating the amended theorem — a recompute before
any read computes nothing; a reset-free trace with a getter call arms
its slot; an armed slot recompute recomputes and republishes; an
unarmed recompute entry point is a no-op. -/
theorem c4_witness :
    (Slot.errors ∉ (runOps (initState [c4exF]) [Op.recomputeErrorsOp]).2) ∧
    (runOps (initState [c4exF])
        [Op.getIsDirtyOp, Op.recomputeIsDirtyOp]).1.cache.rerenderIsDirty =
      true ∧
    (Slot.isDirty ∈ (stepOp
        { c4ex with cache := { initialCache with rerenderIsDirty := true } }
        Slot.isDirty.recomputeOp).2 ∧
      Slot.isDirty.published
        { c4ex with cache := { initialCache with rerenderIsDirty := true } }.fields
        (stepOp
          { c4ex with cache := { initialCache with rerenderIsDirty := true } }
          Slot.isDirty.recomputeOp).1.cache) ∧
    stepOp c4ex Op.recomputeIsDirtyOp = (c4ex, []) := by
  refine ⟨?_, ?_, ?_, ?_⟩
  · exact c4_amended_lazy_cache.1 [c4exF] [Op.recomputeErrorsOp] Slot.errors
      (by intro hmem; simp only [List.mem_singleton] at hmem; cases hmem)
  · exact c4_amended_lazy_cache.2.2.1 [c4exF]
      [Op.getIsDirtyOp, Op.recomputeIsDirtyOp] Slot.isDirty
      (by intro hmem; simp at hmem)
      (by simp [Slot.getOp])
  · exact c4_amended_lazy_cache.2.2.2.1
      { c4ex with cache := { initialCache with rerenderIsDirty := true } }
      Slot.isDirty rfl
  · exact c4_amended_lazy_cache.2.2.2.2.2.1 c4ex rfl

end Houseform
